import Mathlib

/-!
Verification of the export synchronization core of the invoice-export
repository, as a shallow embedding in Lean 4.

The embedding follows the Python sources:
  * `api/admin/sync_service.py`  — `SyncLockManager` (in-process request lock),
    `stream_invoice_sync` (SSE consumer loop);
  * `api/admin/endpoints.py`     — `sync_invoices` endpoint;
  * `script/export_invoice_data.py` — `StateManager` (watermark ledger and
    process file lock), `InvoiceExporter` (validation, partition processing,
    full and incremental orchestration).

Machine strings are modelled as Lean `String` where only equality matters and
as `List Char` where byte-level structure (prefix tests, stripping,
splitting) matters.  Instants are modelled as seconds-since-epoch `Nat`;
the on-disk textual timestamp format is an injective, order-preserving
encoding of that value, modelled by decimal `Nat.repr`.
-/

/-! ## In-process request lock: `SyncLockManager` (sync_service.py, lines 21-90)

The Python class keeps two dicts keyed by `"basic-data"` and `"invoices"`:
`_locks` (an `asyncio.Lock` per kind — observably, a Bool "locked" flag,
since the single-threaded event loop makes the `locked()` check and the
uncontended `acquire()` one atomic step) and `_current_sync`
(kind ↦ metadata or `None`).  `_locks` is never extended, so it is two
fixed fields.  `_current_sync` is only ever read through `.get`, for which
a stored `None` and an absent key are indistinguishable; unknown keys are
only ever assigned `None` (in `release`), so the state is faithfully
represented by the two known-kind fields. -/

structure SyncInfo where
  start_time : Nat
  status : String
deriving DecidableEq, Repr

structure SyncLockManager where
  basicLocked : Bool
  invLocked : Bool
  basicSync : Option SyncInfo
  invSync : Option SyncInfo
deriving DecidableEq, Repr

/-- The freshly constructed manager: both locks free, no current sync. -/
def SyncLockManager.init : SyncLockManager := ⟨false, false, none, none⟩

/-- `self._locks.get(script_type)`: `some` of the locked flag for the two
known kinds, `none` otherwise. -/
def SyncLockManager.locksGet (s : SyncLockManager) (k : String) : Option Bool :=
  if k = "basic-data" then some s.basicLocked
  else if k = "invoices" then some s.invLocked
  else none

/-- `self._current_sync.get(script_type)` (absent key and stored `None`
both read as `none`). -/
def SyncLockManager.syncGet (s : SyncLockManager) (k : String) : Option SyncInfo :=
  if k = "basic-data" then s.basicSync
  else if k = "invoices" then s.invSync
  else none

/-- Write the locked flag of a known kind (unknown kinds have no lock entry
and are never written). -/
def SyncLockManager.setLocked (s : SyncLockManager) (k : String) (b : Bool) :
    SyncLockManager :=
  if k = "basic-data" then { s with basicLocked := b }
  else if k = "invoices" then { s with invLocked := b }
  else s

/-- `self._current_sync[script_type] = v`.  For an unknown kind the Python
dict gains a key whose value is only ever `None`, which `.get` cannot
distinguish from absence; the quotiented state is unchanged. -/
def SyncLockManager.setSync (s : SyncLockManager) (k : String) (v : Option SyncInfo) :
    SyncLockManager :=
  if k = "basic-data" then { s with basicSync := v }
  else if k = "invoices" then { s with invSync := v }
  else s

/-- `SyncLockManager.acquire` (sync_service.py lines 40-59): non-blocking.
If the kind is unknown or its lock is held, return `false` with the state
unchanged; otherwise take the lock and record `{start_time, status:
"running"}`. -/
def SyncLockManager.acquire (s : SyncLockManager) (k : String) (now : Nat) :
    Bool × SyncLockManager :=
  match s.locksGet k with
  | none => (false, s)
  | some locked =>
    if locked then (false, s)
    else (true, (s.setLocked k true).setSync k (some ⟨now, "running"⟩))

/-- `SyncLockManager.release` (lines 61-71): unlock if held, then clear the
current-sync record unconditionally. -/
def SyncLockManager.release (s : SyncLockManager) (k : String) : SyncLockManager :=
  let s1 := match s.locksGet k with
    | some true => s.setLocked k false
    | _ => s
  s1.setSync k none

/-- Result of `SyncLockManager.get_status` (lines 73-86). -/
structure SyncStatus where
  is_running : Bool
  current_sync : Option SyncInfo
deriving DecidableEq, Repr

/-- `get_status`: `self._locks.get(k, asyncio.Lock()).locked()` — the default
fresh lock is unlocked, so unknown kinds read `false` — paired with
`self._current_sync.get(k)`. -/
def SyncLockManager.get_status (s : SyncLockManager) (k : String) : SyncStatus :=
  { is_running := (s.locksGet k).getD false
    current_sync := s.syncGet k }

/-! ## Trigger endpoint `sync_invoices` (endpoints.py, lines 163-193)

The endpoint first tries to acquire the `"invoices"` request lock; on
failure it raises `HTTPException(409)` before any stream object is created,
otherwise it returns the SSE stream. -/

inductive SyncResponse
  | busy409
  | stream
deriving DecidableEq, Repr

/-- `sync_invoices` endpoint: busy rejection (HTTP 409) or a stream. -/
def sync_invoices (s : SyncLockManager) (now : Nat) : SyncResponse × SyncLockManager :=
  match SyncLockManager.acquire s "invoices" now with
  | (true, s') => (SyncResponse.stream, s')
  | (false, s') => (SyncResponse.busy409, s')

/-! ## Theorems for C2 and C10 -/

/-- C2: within one process, of two consecutive `acquire` calls for the same
export kind at most one succeeds; once a `sync_invoices` start has returned
a stream, a second start is rejected with HTTP 409 before any stream is
opened; and `acquire` on a kind whose lock is already held returns `false`
immediately with the state unchanged (no waiting). -/
theorem syncLock_second_start_rejected (s : SyncLockManager) (k : String) (t1 t2 : Nat) :
    (¬ ((SyncLockManager.acquire s k t1).1 = true ∧
        (SyncLockManager.acquire (SyncLockManager.acquire s k t1).2 k t2).1 = true)) ∧
    ((sync_invoices s t1).1 = SyncResponse.stream →
        (sync_invoices (sync_invoices s t1).2 t2).1 = SyncResponse.busy409) ∧
    (s.locksGet k = some true → SyncLockManager.acquire s k t2 = (false, s)) := by
  refine ⟨?_, ?_, ?_⟩
  · rintro ⟨h1, h2⟩
    by_cases hb : k = "basic-data"
    · subst hb
      by_cases hl : s.basicLocked
      · simp [SyncLockManager.acquire, SyncLockManager.locksGet, hl] at h1
      · simp [SyncLockManager.acquire, SyncLockManager.locksGet, hl,
          SyncLockManager.setSync, SyncLockManager.setLocked] at h2
    · by_cases hi : k = "invoices"
      · subst hi
        by_cases hl : s.invLocked
        · simp [SyncLockManager.acquire, SyncLockManager.locksGet, hl] at h1
        · simp [SyncLockManager.acquire, SyncLockManager.locksGet, hl,
            SyncLockManager.setSync, SyncLockManager.setLocked] at h2
      · simp [SyncLockManager.acquire, SyncLockManager.locksGet, hb, hi] at h1
  · intro h
    by_cases hfree : s.invLocked
    · simp [sync_invoices, SyncLockManager.acquire, SyncLockManager.locksGet, hfree] at h
    · simp [sync_invoices, SyncLockManager.acquire, SyncLockManager.locksGet, hfree,
        SyncLockManager.setLocked, SyncLockManager.setSync]
  · intro h
    simp [SyncLockManager.acquire, h]

/-- Witness for `syncLock_second_start_rejected`: from a fresh manager the
first start streams and the second is rejected with 409. -/
theorem syncLock_second_start_rejected_witness :
    (sync_invoices (sync_invoices SyncLockManager.init 5).2 6).1 = SyncResponse.busy409 :=
  (syncLock_second_start_rejected SyncLockManager.init "invoices" 5 6).2.1 (by decide)

/-- C10: for any `script_type` other than `"basic-data"` and `"invoices"`
the lock manager is total and benign: `acquire` returns `false` leaving the
state unchanged, `release` is a no-op, and `get_status` reports
`is_running = false` with `current_sync = None`.  All three operations are
total Lean functions (no exceptional outcome exists in the embedding,
matching the Python code, which raises on none of these paths). -/
theorem syncLock_unknown_kind_benign (s : SyncLockManager) (k : String) (now : Nat)
    (hk : k ≠ "basic-data" ∧ k ≠ "invoices") :
    SyncLockManager.acquire s k now = (false, s) ∧
    SyncLockManager.release s k = s ∧
    SyncLockManager.get_status s k = ⟨false, none⟩ := by
  obtain ⟨hb, hi⟩ := hk
  refine ⟨?_, ?_, ?_⟩
  · simp [SyncLockManager.acquire, SyncLockManager.locksGet, hb, hi]
  · simp [SyncLockManager.release, SyncLockManager.locksGet, SyncLockManager.setSync, hb, hi]
  · simp [SyncLockManager.get_status, SyncLockManager.locksGet, SyncLockManager.syncGet, hb, hi]

/-- Witness for `syncLock_unknown_kind_benign` at the concrete kind
`"other"`. -/
theorem syncLock_unknown_kind_benign_witness :
    SyncLockManager.acquire SyncLockManager.init "other" 0 = (false, SyncLockManager.init) ∧
    SyncLockManager.release SyncLockManager.init "other" = SyncLockManager.init ∧
    SyncLockManager.get_status SyncLockManager.init "other" = ⟨false, none⟩ :=
  syncLock_unknown_kind_benign SyncLockManager.init "other" 0 (by decide)

/-! ## Watermark ledger: `StateManager` (export_invoice_data.py, lines 62-180)

The ledger (`.last_export_time`) is a line-oriented text file, one line per
tenant, `tenant_id|boundary_time|record_count|status\n`.  Lines are modelled
at the byte level as `List Char`.  `init_state_file` creates the file before
every incremental run, so the ledger is modelled as an always-existing
`List Line` (absent ≡ empty).  The textual timestamp is modelled by the
injective, order-preserving decimal encoding of seconds-since-epoch. -/

abbrev Line := List Char

/-- Python `str.isspace` on the characters `str.strip` removes. -/
def pyIsSpace (c : Char) : Bool :=
  c = ' ' || c = '\t' || c = '\n' || c = '\r' || c = Char.ofNat 11 || c = Char.ofNat 12

/-- Right strip (`str.rstrip`). -/
def rstrip (l : List Char) : List Char := (l.reverse.dropWhile pyIsSpace).reverse

/-- Python `str.strip`: drop whitespace from both ends. -/
def pstrip (l : Line) : Line := rstrip (l.dropWhile pyIsSpace)

/-- The prefix `f"{tenant_id}|"` used by both `get_last_export_time` and
`update_export_time` to recognise a tenant's ledger line. -/
def tenantKey (tid : List Char) : List Char := tid ++ ['|']

/-- `line.strip().startswith(f"{tenant_id}|")`. -/
def lineIsTenant (tid : List Char) (l : Line) : Bool :=
  (tenantKey tid).isPrefixOf (pstrip l)

/-- Textual timestamp encoding of an instant (order-preserving, injective). -/
def timeRepr (t : Nat) : List Char := (Nat.repr t).data

/-- `f"{tenant_id}|{export_time}|{record_count}|{status}\n"`. -/
def newLedgerLine (tid : List Char) (boundary count : Nat) (status : List Char) : Line :=
  tid ++ '|' :: (timeRepr boundary ++ '|' :: ((Nat.repr count).data ++ '|' :: (status ++ ['\n'])))

/-- File-system steps performed by `update_export_time` (lines 139-168):
write the filtered ledger to the temp file (`open(temp,'w')` loop), append
the new line (`open(temp,'a')`), then `shutil.move(temp, STATE_FILE)` —
an atomic rename on the same file system. -/
inductive FsOp
  | writeTemp (content : List Line)
  | appendTemp (content : List Line)
  | renameTempToLedger
deriving DecidableEq, Repr

/-- The two on-disk files touched by `update_export_time`: the live ledger
and the temporary file (`.tmp`), the latter taken as initially empty. -/
structure Fs where
  ledger : List Line
  temp : List Line
deriving DecidableEq, Repr

def applyFsOp (fs : Fs) : FsOp → Fs
  | .writeTemp c => { fs with temp := c }
  | .appendTemp c => { fs with temp := fs.temp ++ c }
  | .renameTempToLedger => { ledger := fs.temp, temp := [] }

/-- The file-system operation sequence of `StateManager.update_export_time`.
In dry-run mode the method returns after logging, touching nothing. -/
def update_export_time_ops (dry : Bool) (tid : List Char) (boundary count : Nat)
    (status : List Char) (ledger : List Line) : List FsOp :=
  if dry then []
  else
    [FsOp.writeTemp (ledger.filter (fun l => !(lineIsTenant tid l))),
     FsOp.appendTemp [newLedgerLine tid boundary count status],
     FsOp.renameTempToLedger]

/-- The ledger contents after `update_export_time` runs to completion. -/
def update_export_time (dry : Bool) (tid : List Char) (boundary count : Nat)
    (status : List Char) (ledger : List Line) : List Line :=
  ((update_export_time_ops dry tid boundary count status ledger).foldl
    applyFsOp ⟨ledger, []⟩).ledger

/-- `StateManager.get_last_export_time` (lines 123-137): first line whose
stripped form starts with `tenant_id|`, split on `|`, field 1; `none` when
the tenant has no line (Python returns `""`). -/
def splitPipe : List Char → List (List Char)
  | [] => [[]]
  | c :: rest =>
    if c = '|' then [] :: splitPipe rest
    else
      match splitPipe rest with
      | [] => [[c]]
      | f :: fs => (c :: f) :: fs

def get_last_export_time (ledger : List Line) (tid : List Char) : Option (List Char) :=
  match ledger.find? (fun l => lineIsTenant tid l) with
  | none => none
  | some l => some ((splitPipe (pstrip l)).getD 1 [])

/-- Decode the textual timestamp back to an instant (used where the stored
`boundary_time` string feeds the next run's SQL time window). -/
def parseTime (s : List Char) : Nat :=
  s.foldl (fun acc c => acc * 10 + (c.toNat - 48)) 0

/-- `TIME_BUFFER_SECONDS = 300` (line 56). -/
def TIME_BUFFER_SECONDS : Nat := 300

/-- `StateManager.calculate_export_boundary` (lines 177-180): current time
minus the 300 s safety buffer. -/
def calculate_export_boundary (now : Nat) : Nat := now - TIME_BUFFER_SECONDS

/-! ### Ledger lemmas -/

/-- Stripping a line that starts with a non-space tenant id followed by `|`
keeps that head intact and only right-strips the remainder. -/
theorem pstrip_key_line (c : Char) (cs mid : List Char) (hc : pyIsSpace c = false) :
    pstrip ((c :: cs) ++ '|' :: mid) = (c :: cs) ++ '|' :: rstrip mid := by
  have hpipe : pyIsSpace '|' = false := by decide
  unfold pstrip rstrip
  simp only [List.cons_append]
  rw [List.dropWhile_cons_of_neg (by simp [hc])]
  have hrev : (c :: (cs ++ '|' :: mid)).reverse
      = mid.reverse ++ '|' :: (cs.reverse ++ [c]) := by
    simp
  rw [hrev, List.dropWhile_append]
  by_cases hemp : (mid.reverse.dropWhile pyIsSpace).isEmpty
  · simp only [hemp, if_pos]
    rw [List.dropWhile_cons_of_neg (by simp [hpipe])]
    have hnil : mid.reverse.dropWhile pyIsSpace = [] := by
      simpa [List.isEmpty_iff] using hemp
    simp [hnil]
  · simp only [hemp, if_neg, Bool.not_eq_true]
    simp

/-- The freshly formatted ledger line is recognised as the tenant's line
(its tenant id is non-empty and does not start with whitespace). -/
theorem lineIsTenant_newLedgerLine (c : Char) (cs : List Char) (boundary count : Nat)
    (status : List Char) (hc : pyIsSpace c = false) :
    lineIsTenant (c :: cs) (newLedgerLine (c :: cs) boundary count status) = true := by
  unfold lineIsTenant newLedgerLine tenantKey
  rw [pstrip_key_line c cs _ hc]
  have : (c :: cs) ++ '|' :: rstrip (timeRepr boundary ++ '|' ::
      ((Nat.repr count).data ++ '|' :: (status ++ ['\n'])))
      = ((c :: cs) ++ ['|']) ++ rstrip (timeRepr boundary ++ '|' ::
      ((Nat.repr count).data ++ '|' :: (status ++ ['\n']))) := by
    simp
  rw [this]
  simp

/-- Completed `update_export_time` (non-dry): the kept lines followed by the
new line. -/
theorem update_export_time_eq (tid : List Char) (boundary count : Nat)
    (status : List Char) (ledger : List Line) :
    update_export_time false tid boundary count status ledger
      = ledger.filter (fun l => !(lineIsTenant tid l))
        ++ [newLedgerLine tid boundary count status] := by
  simp [update_export_time, update_export_time_ops, applyFsOp, List.foldl]

/-- C3: for a ledger with at most one line per tenant,
`StateManager.update_export_time tenant boundary count status` leaves
exactly one line for that tenant — the freshly written one — keeps every
other line byte-for-byte unchanged and in order, and performs the change by
writing a complete temporary file and renaming it over the ledger, so the
ledger visible after any prefix of its file-system steps is either the old
or the new content, never anything else. -/
theorem update_export_time_atomic_replace (tid : List Char) (boundary count : Nat)
    (status : List Char) (ledger : List Line)
    (htid : ∃ c cs, tid = c :: cs ∧ pyIsSpace c = false)
    (hone : ledger.countP (fun l => lineIsTenant tid l) ≤ 1) :
    (update_export_time false tid boundary count status ledger).countP
        (fun l => lineIsTenant tid l) = 1 ∧
    (∀ l ∈ update_export_time false tid boundary count status ledger,
        lineIsTenant tid l = true → l = newLedgerLine tid boundary count status) ∧
    ((update_export_time false tid boundary count status ledger).filter
        (fun l => !(lineIsTenant tid l)) =
      ledger.filter (fun l => !(lineIsTenant tid l))) ∧
    (∀ k : Nat,
        (((update_export_time_ops false tid boundary count status ledger).take k).foldl
            applyFsOp ⟨ledger, []⟩).ledger = ledger ∨
        (((update_export_time_ops false tid boundary count status ledger).take k).foldl
            applyFsOp ⟨ledger, []⟩).ledger
          = update_export_time false tid boundary count status ledger) := by
  obtain ⟨c, cs, rfl, hc⟩ := htid
  have hnew := lineIsTenant_newLedgerLine c cs boundary count status hc
  have hres := update_export_time_eq (c :: cs) boundary count status ledger
  refine ⟨?_, ?_, ?_, ?_⟩
  · rw [hres, List.countP_append]
    have hz : (ledger.filter (fun l => !(lineIsTenant (c :: cs) l))).countP
        (fun l => lineIsTenant (c :: cs) l) = 0 := by
      rw [List.countP_eq_zero]
      intro a ha
      have := (List.mem_filter.1 ha).2
      simp only [Bool.not_eq_true'] at this
      simp [this]
    rw [hz]
    simp [List.countP_cons, hnew]
  · intro l hl hmatch
    rw [hres] at hl
    rcases List.mem_append.1 hl with hin | hin
    · have := (List.mem_filter.1 hin).2
      rw [hmatch] at this
      simp at this
    · simpa using hin
  · rw [hres, List.filter_append]
    simp [List.filter_filter, hnew]
  · intro k
    match k with
    | 0 => left; simp
    | 1 => left; simp [update_export_time_ops, applyFsOp]
    | 2 => left; simp [update_export_time_ops, applyFsOp]
    | (n + 3) =>
      right
      have h3 : (update_export_time_ops false (c :: cs) boundary count status ledger).take
          (n + 3) = update_export_time_ops false (c :: cs) boundary count status ledger :=
        List.take_of_length_le (by simp [update_export_time_ops])
      rw [h3]
      rfl

/-- Witness for `update_export_time_atomic_replace`: a two-tenant ledger
updated at tenant `"1"`. -/
theorem update_export_time_atomic_replace_witness :
    (update_export_time false ['1'] 900 0 "SUCCESS".data
        [['2', '|', '5', '\n'], ['1', '|', '3', '\n']]).countP
      (fun l => lineIsTenant ['1'] l) = 1 :=
  (update_export_time_atomic_replace ['1'] 900 0 "SUCCESS".data
    [['2', '|', '5', '\n'], ['1', '|', '3', '\n']]
    ⟨'1', [], rfl, by decide⟩ (by decide)).1

/-! ## Invoice exporter (`InvoiceExporter`, export_invoice_data.py lines 199-714)

Database rows are modelled at the level the export code observes them.  The
payload column `fext_field` is summarised by `extPresent` (SQL's
`IS NOT NULL AND LENGTH > 0`) and `extKeys`: `some keys` when `json.loads`
succeeds and membership tests see exactly `keys`, `none` when the string is
empty/whitespace or fails to parse (the library call `json.loads` is
external code; its outcome is part of the row model).  Per-file write
failures (exceptions caught inside `write_invoice_files`) are modelled by
the oracle `writeOk`, and a partition-level exception (DB connect/query,
caught at lines 482-490) by the oracle `exn`. -/

structure ExporterCfg where
  num_threads : Nat
  compress : Bool
  dry_run : Bool
  incremental : Bool
  tenant_id : Option (List Char)
deriving DecidableEq, Repr

structure DbRow where
  ftenant_id : List Char
  fcountry : Option (List Char)
  fissue_status : Nat
  finvoice_no : List Char
  issueDatePresent : Bool
  issue_date_fmt : List Char
  extPresent : Bool
  extKeys : Option (List String)
  fupdate_time : Nat
deriving DecidableEq, Repr

/-- `IFNULL(fcountry, 'UNKNOWN')`. -/
def ifnullCountry (r : DbRow) : List Char :=
  match r.fcountry with
  | none => "UNKNOWN".data
  | some c => c

/-- `self.tenant_id` filter appended to the group query when present. -/
def tenantFilter (tid? : Option (List Char)) (r : DbRow) : Bool :=
  match tid? with
  | none => true
  | some t => r.ftenant_id == t

/-- The `WHERE` conditions shared by every export query: issue status 3,
non-empty payload, non-empty invoice number, non-NULL issue date. -/
def sqlEligible (r : DbRow) : Bool :=
  r.fissue_status == 3 && r.extPresent && !r.finvoice_no.isEmpty && r.issueDatePresent

/-- The per-group country condition: `fcountry = '{country}'`, or
`fcountry IS NULL OR fcountry = ''` for the `UNKNOWN` group. -/
def countryFilterSql (country : List Char) (r : DbRow) : Bool :=
  if country == "UNKNOWN".data then r.fcountry == none || r.fcountry == some []
  else r.fcountry == some country

def sqlRowBase (tid country : List Char) (r : DbRow) : Bool :=
  sqlEligible r && r.ftenant_id == tid && countryFilterSql country r

/-- Incremental window: `fupdate_time > last AND fupdate_time <= boundary`
(half-open `(last, boundary]`). -/
def sqlRowIncr (tid country : List Char) (last boundary : Nat) (r : DbRow) : Bool :=
  sqlRowBase tid country r && decide (last < r.fupdate_time)
    && decide (r.fupdate_time ≤ boundary)

/-- `InvoiceExporter.validate_json_field` (lines 239-253): the payload must
be non-empty, parse as JSON, and contain the `ID` and `IssueDate` fields;
all failure modes collapse to `extKeys = none` except missing keys. -/
def validate_json_field (extKeys : Option (List String)) : Bool :=
  match extKeys with
  | none => false
  | some keys => keys.contains "ID" && keys.contains "IssueDate"

structure Invoice where
  invoice_no : List Char
  issue_date : List Char
  extKeys : List String
  update_time : Nat
deriving DecidableEq, Repr

/-- `InvoiceExporter.get_invoices_for_group` (lines 310-389): run the SQL
query (windowed only when `incremental` and both times are given) and keep
the rows that pass the Python-side validation; malformed rows are skipped
with a warning log and nothing else.  The SQL `ORDER BY` is omitted: every
property below is insensitive to row order. -/
def get_invoices_for_group (incremental : Bool) (db : List DbRow)
    (tid country : List Char) (last boundary : Option Nat) : List Invoice :=
  let rows := match incremental, last, boundary with
    | true, some lt, some bt => db.filter (sqlRowIncr tid country lt bt)
    | _, _, _ => db.filter (sqlRowBase tid country)
  rows.filterMap (fun r =>
    if r.finvoice_no.isEmpty then none
    else if validate_json_field r.extKeys then
      some ⟨r.finvoice_no, r.issue_date_fmt, r.extKeys.getD [], r.fupdate_time⟩
    else none)

/-- `InvoiceExporter.write_invoice_files` (lines 391-431).  Returns the
successful-write count (the function's return value) and the number of
per-file failures added to `stats['failed_files']`.  In dry-run mode no
file is touched and the full length is returned. -/
def write_invoice_files (dry : Bool) (writeOk : Invoice → Bool)
    (invoices : List Invoice) : Nat × Nat :=
  if dry then (invoices.length, 0)
  else ((invoices.filter writeOk).length, (invoices.filter (fun i => !writeOk i)).length)

inductive GroupStatus
  | success
  | no_data
  | error
deriving DecidableEq, Repr

/-- Per-partition result dict.  `processed`/`total` are 0 where the Python
dict omits the key (`no_data` carries `processed = 0`; `error` carries
neither and neither is ever read).  `invoicesDelta`/`failedFilesDelta` are
ghost fields recording what the partition added to the shared `stats`
counters under the mutex. -/
structure GroupResult where
  tenant_id : List Char
  country : List Char
  status : GroupStatus
  processed : Nat
  total : Nat
  invoicesDelta : Nat
  failedFilesDelta : Nat
deriving DecidableEq, Repr

/-- `InvoiceExporter.process_group` (lines 433-490).  The `invoice_count`
argument of the Python signature is never read by the body and is kept here
as `_invoice_count`.  `exn = true` models an exception inside the
partition's `try` block (connection, query or write), caught and turned
into an `error` result. -/
def process_group (cfg : ExporterCfg) (db : List DbRow) (writeOk : Invoice → Bool)
    (exn : Bool) (tid country : List Char) (_invoice_count : Nat)
    (last boundary : Option Nat) : GroupResult :=
  if exn then ⟨tid, country, .error, 0, 0, 0, 0⟩
  else
    let invoices := get_invoices_for_group cfg.incremental db tid country last boundary
    if invoices.isEmpty then ⟨tid, country, .no_data, 0, 0, 0, 0⟩
    else
      let wr := write_invoice_files cfg.dry_run writeOk invoices
      ⟨tid, country, .success, wr.1, invoices.length, invoices.length, wr.2⟩

/-- Lexicographic order on the `(tenant_id, country)` pairs of the SQL
`ORDER BY ftenant_id, fcountry`. -/
def groupKeyLe (a b : List Char × List Char) : Prop :=
  a.1 < b.1 ∨ (a.1 = b.1 ∧ a.2 ≤ b.2)

instance : DecidableRel groupKeyLe := fun a b => by
  unfold groupKeyLe; infer_instance

/-- `InvoiceExporter.get_tenant_country_groups` (lines 260-308):
`GROUP BY ftenant_id, IFNULL(fcountry,'UNKNOWN')` with counts, ordered by
tenant then country, optionally restricted to `self.tenant_id`. -/
def get_tenant_country_groups (cfg : ExporterCfg) (db : List DbRow) :
    List (List Char × List Char × Nat) :=
  let eligible := db.filter (fun r => sqlEligible r && tenantFilter cfg.tenant_id r)
  let keys := (eligible.map (fun r => (r.ftenant_id, ifnullCountry r))).eraseDups
  (List.insertionSort groupKeyLe keys).map
    (fun k => (k.1, k.2, eligible.countP (fun r => (r.ftenant_id, ifnullCountry r) == k)))

/-- Count of results carrying a given status
(`sum(1 for r in results if r['status'] == ...)`). -/
def statusCount (st : GroupStatus) (results : List GroupResult) : Nat :=
  results.countP (fun r => r.status == st)

/-- Summary dict returned by `InvoiceExporter.export_all` on its normal
path (lines 695-706); timing and directory fields are omitted. -/
structure RunSummary where
  success : Bool
  total_groups : Nat
  successful_groups : Nat
  failed_groups : Nat
  no_data_groups : Nat
  total_invoices : Nat
  successful_files : Nat
  failed_files : Nat
deriving DecidableEq, Repr

/-- `InvoiceExporter.export_all` (lines 606-714), normal path: enumerate
groups, process each partition (the thread pool bounds concurrency; the
per-partition results and the mutex-protected counters are independent of
completion order, so the pool is modelled by a map), then aggregate.
`success` is the source's `failed_groups == 0`.  The outer `except` path
(fatal setup failure) is not part of a completed run. -/
def limitGroups (limit : Option Nat) (gs : List (List Char × List Char × Nat)) :
    List (List Char × List Char × Nat) :=
  match limit with
  | none => gs
  | some n => gs.take n

def export_all (cfg : ExporterCfg) (db : List DbRow) (writeOk : Invoice → Bool)
    (exn : List Char → List Char → Bool) (limit : Option Nat) :
    RunSummary × List GroupResult :=
  let groups := limitGroups limit (get_tenant_country_groups cfg db)
  let results := groups.map (fun g =>
    process_group cfg db writeOk (exn g.1 g.2.1) g.1 g.2.1 g.2.2 none none)
  let failed := statusCount .error results
  ({ success := failed == 0
    , total_groups := groups.length
    , successful_groups := statusCount .success results
    , failed_groups := failed
    , no_data_groups := statusCount .no_data results
    , total_invoices := results.foldl (fun a r => a + r.invoicesDelta) 0
    , successful_files := results.foldl (fun a r => a + r.processed) 0
    , failed_files := results.foldl (fun a r => a + r.failedFilesDelta) 0 }, results)

/-- `sorted(set(group[0] for group in all_groups))` (line 529): ascending
lexicographic order on tenant ids. -/
def unique_tenants (groups : List (List Char × List Char × Nat)) : List (List Char) :=
  List.insertionSort (· ≤ ·) ((groups.map (fun g => g.1)).dedup)

/-- Lines 536-539: the tenant's last export time, or the epoch
(`"1970-01-01 00:00:00"`, instant 0) when the ledger has no line for the
tenant or the stored field is empty (both read back as a falsy string). -/
def lastExportNat (ledger : List Line) (tid : List Char) : Nat :=
  match get_last_export_time ledger tid with
  | none => 0
  | some s => if s.isEmpty then 0 else parseTime s

/-- One iteration of the per-tenant loop of `export_incremental`
(lines 532-571): read the tenant's watermark (epoch when absent or empty),
process the tenant's partitions strictly in sequence against the
`(last, boundary]` window, then write the watermark with the summed
success-count — even when it is zero — and status `"SUCCESS"`,
unconditionally. -/
def tenantPass (cfg : ExporterCfg) (db : List DbRow) (writeOk : Invoice → Bool)
    (exn : List Char → List Char → Bool) (boundary : Nat)
    (groups : List (List Char × List Char × Nat)) (ledger : List Line)
    (tid : List Char) : List GroupResult × Nat × List Line :=
  let last : Nat := lastExportNat ledger tid
  let tgroups := groups.filter (fun g => g.1 == tid)
  let results := tgroups.map (fun g =>
    process_group cfg db writeOk (exn tid g.2.1) tid g.2.1 g.2.2 (some last) (some boundary))
  let cnt := (results.filter (fun r => r.status == GroupStatus.success)).foldl
    (fun a r => a + r.processed) 0
  (results, cnt, update_export_time cfg.dry_run tid boundary cnt "SUCCESS".data ledger)

/-- Summary dict returned by `InvoiceExporter.export_incremental` on its
normal path (lines 589-596): `success` is the literal `True`. -/
structure IncrSummary where
  success : Bool
  total_tenants : Nat
  new_invoices : Nat
deriving DecidableEq, Repr

structure IncrOutcome where
  summary : IncrSummary
  ledger : List Line
  results : List GroupResult
deriving DecidableEq, Repr

/-- The loop body of the per-tenant fold in `export_incremental`:
accumulate results and counts, thread the ledger. -/
def incrStep (cfg : ExporterCfg) (db : List DbRow) (writeOk : Invoice → Bool)
    (exn : List Char → List Char → Bool) (boundary : Nat)
    (allGroups : List (List Char × List Char × Nat))
    (acc : List GroupResult × Nat × List Line) (tid : List Char) :
    List GroupResult × Nat × List Line :=
  let r := tenantPass cfg db writeOk exn boundary allGroups acc.2.2 tid
  (acc.1 ++ r.1, acc.2.1 + r.2.1, r.2.2)

/-- `InvoiceExporter.export_incremental` (lines 492-604), normal path:
compute the boundary, enumerate groups, then fold the per-tenant pass over
the sorted unique tenants — one partition at a time, no thread pool.
`results` is the (ghost) concatenation of every partition result in
processing order.  The outer `except` path (fatal setup failure) is not
part of a completed run. -/
def export_incremental (cfg : ExporterCfg) (db : List DbRow) (writeOk : Invoice → Bool)
    (exn : List Char → List Char → Bool) (ledger0 : List Line) (now : Nat)
    (limit : Option Nat) : IncrOutcome :=
  let boundary := calculate_export_boundary now
  let allGroups := limitGroups limit (get_tenant_country_groups cfg db)
  let tenants := unique_tenants allGroups
  let final := tenants.foldl (incrStep cfg db writeOk exn boundary allGroups) ([], 0, ledger0)
  { summary := { success := true
               , total_tenants := tenants.length
               , new_invoices := final.2.1 }
  , ledger := final.2.2
  , results := final.1 }

/-! ## Theorems for C5 -/

/-- A single eligible row for tenant `"1"`, country `"DE"`. -/
def sampleRow : DbRow :=
  { ftenant_id := ['1']
  , fcountry := some ['D', 'E']
  , fissue_status := 3
  , finvoice_no := ['A']
  , issueDatePresent := true
  , issue_date_fmt := "20240101".data
  , extPresent := true
  , extKeys := some ["ID", "IssueDate"]
  , fupdate_time := 50 }

/-- Incremental, non-dry configuration with 4 worker threads. -/
def sampleCfg : ExporterCfg :=
  { num_threads := 4, compress := false, dry_run := false
  , incremental := true, tenant_id := none }

/-- C5 counterexample: a completed incremental run whose single partition
raised (status `error`) still reports `success = true` — the overall
success flag of the incremental summary is NOT "zero error partitions";
`export_incremental` returns the literal `success: True` on every normal
completion (line 590). -/
theorem incremental_success_despite_error_partition :
    (export_incremental sampleCfg [sampleRow] (fun _ => true) (fun _ _ => true)
        [] 1000 none).summary.success = true ∧
    statusCount GroupStatus.error
      (export_incremental sampleCfg [sampleRow] (fun _ => true) (fun _ _ => true)
        [] 1000 none).results = 1 ∧
    ¬ ((export_incremental sampleCfg [sampleRow] (fun _ => true) (fun _ _ => true)
        [] 1000 none).summary.success = true ↔
      statusCount GroupStatus.error
        (export_incremental sampleCfg [sampleRow] (fun _ => true) (fun _ _ => true)
          [] 1000 none).results = 0) := by
  refine ⟨by decide, by decide, ?_⟩
  intro h
  have h1 : statusCount GroupStatus.error
      (export_incremental sampleCfg [sampleRow] (fun _ => true) (fun _ _ => true)
        [] 1000 none).results = 0 := h.1 (by decide)
  have h2 : statusCount GroupStatus.error
      (export_incremental sampleCfg [sampleRow] (fun _ => true) (fun _ _ => true)
        [] 1000 none).results = 1 := by decide
  omega

/-- C5 (amended): for a completed full run (`export_all`) the summary's
success flag is `true` iff no partition result has status `error`; a
completed incremental run (`export_incremental`) instead always reports
`success = true`, regardless of error partitions. -/
theorem run_summary_success_flag (cfg : ExporterCfg) (db : List DbRow)
    (writeOk : Invoice → Bool) (exn : List Char → List Char → Bool)
    (limit : Option Nat) (ledger0 : List Line) (now : Nat) :
    ((export_all cfg db writeOk exn limit).1.success = true ↔
      statusCount GroupStatus.error (export_all cfg db writeOk exn limit).2 = 0) ∧
    (export_incremental cfg db writeOk exn ledger0 now limit).summary.success = true := by
  constructor
  · simp [export_all]
  · simp [export_incremental]

/-! ## Theorems for C4 -/

/-- C4: a tenant processed in an incremental pass with zero eligible new
records (every one of its partitions yields an empty invoice list) still
has its watermark written with the run's boundary, `record_count = 0` and
status `SUCCESS`; in dry-run mode the ledger is unchanged. -/
theorem tenant_watermark_advances_on_zero_records (cfg : ExporterCfg) (db : List DbRow)
    (writeOk : Invoice → Bool) (exn : List Char → List Char → Bool) (boundary : Nat)
    (groups : List (List Char × List Char × Nat)) (ledger : List Line) (tid : List Char)
    (hempty : ∀ g ∈ groups.filter (fun g => g.1 == tid),
        get_invoices_for_group cfg.incremental db tid g.2.1
          (some (lastExportNat ledger tid)) (some boundary) = []) :
    (tenantPass cfg db writeOk exn boundary groups ledger tid).2.2
      = update_export_time cfg.dry_run tid boundary 0 "SUCCESS".data ledger ∧
    (cfg.dry_run = false →
      (tenantPass cfg db writeOk exn boundary groups ledger tid).2.2
        = ledger.filter (fun l => !(lineIsTenant tid l))
          ++ [newLedgerLine tid boundary 0 "SUCCESS".data]) ∧
    (cfg.dry_run = true →
      (tenantPass cfg db writeOk exn boundary groups ledger tid).2.2 = ledger) := by
  have hfilter : ((groups.filter (fun g => g.1 == tid)).map (fun g =>
      process_group cfg db writeOk (exn tid g.2.1) tid g.2.1 g.2.2
        (some (lastExportNat ledger tid)) (some boundary))).filter
      (fun r => r.status == GroupStatus.success) = [] := by
    rw [List.filter_eq_nil_iff]
    intro r hr
    obtain ⟨g, hg, rfl⟩ := List.mem_map.1 hr
    by_cases he : exn tid g.2.1
    · simp [process_group, he]
    · simp [process_group, he, hempty g hg]
  have hmain : (tenantPass cfg db writeOk exn boundary groups ledger tid).2.2
      = update_export_time cfg.dry_run tid boundary 0 "SUCCESS".data ledger := by
    simp only [tenantPass]
    rw [hfilter]
    rfl
  refine ⟨hmain, ?_, ?_⟩
  · intro hdry
    rw [hmain, hdry, update_export_time_eq]
  · intro hdry
    rw [hmain, hdry]
    simp [update_export_time, update_export_time_ops]

/-- Witness for `tenant_watermark_advances_on_zero_records`: tenant `"1"`,
empty database, empty ledger — the pass writes
`1|<boundary>|0|SUCCESS`. -/
theorem tenant_watermark_advances_on_zero_records_witness :
    (tenantPass sampleCfg [] (fun _ => true) (fun _ _ => false) 700
        [(['1'], ['D', 'E'], 0)] [] ['1']).2.2
      = [newLedgerLine ['1'] 700 0 "SUCCESS".data] := by
  have h := (tenant_watermark_advances_on_zero_records sampleCfg []
    (fun _ => true) (fun _ _ => false) 700 [(['1'], ['D', 'E'], 0)] [] ['1']
    (by decide)).2.1 rfl
  simpa using h

/-! ## Theorems for C7 -/

/-- Appending to the database a row that fails the Python-side validation
(empty invoice number, unparseable payload, or payload missing `ID` /
`IssueDate`) leaves the group's invoice list unchanged: the record is
excluded from the output. -/
theorem invalid_record_excluded (incremental : Bool) (db : List DbRow)
    (tid country : List Char) (last boundary : Option Nat) (rbad : DbRow)
    (hbad : rbad.finvoice_no.isEmpty = true ∨ validate_json_field rbad.extKeys = false) :
    get_invoices_for_group incremental (db ++ [rbad]) tid country last boundary
      = get_invoices_for_group incremental db tid country last boundary := by
  have hdrop : ∀ r ∈ [rbad],
      (if r.finvoice_no.isEmpty then (none : Option Invoice)
       else if validate_json_field r.extKeys then
        some ⟨r.finvoice_no, r.issue_date_fmt, r.extKeys.getD [], r.fupdate_time⟩
       else none) = none := by
    intro r hr
    rw [List.mem_singleton.1 hr]
    rcases hbad with h | h <;> simp [h]
  unfold get_invoices_for_group
  rcases incremental with _ | _ <;> rcases last with _ | lt <;> rcases boundary with _ | bt <;>
    · simp only [List.filter_append, List.filterMap_append]
      rw [List.append_right_eq_self, List.filterMap_eq_nil_iff]
      intro r hr
      exact hdrop r (List.mem_filter.1 hr |>.1)

/-- C7 (amended): with no partition-level exception, a malformed record is
excluded from the output and is never fatal — the partition result (and the
deltas it adds to the shared stats counters) is identical to that of the
same partition without the malformed record, so no skipped tally exists
anywhere in the result; the status stays `success` when at least one other
record is valid, a partition whose records are all filtered out reports
`no_data`, and `error` is impossible without an exception. -/
theorem malformed_record_skipped_not_fatal (cfg : ExporterCfg) (db : List DbRow)
    (writeOk : Invoice → Bool) (tid country : List Char) (count : Nat)
    (last boundary : Option Nat) (rbad : DbRow)
    (hbad : rbad.finvoice_no.isEmpty = true ∨ validate_json_field rbad.extKeys = false) :
    (process_group cfg (db ++ [rbad]) writeOk false tid country count last boundary
      = process_group cfg db writeOk false tid country count last boundary) ∧
    (get_invoices_for_group cfg.incremental db tid country last boundary ≠ [] →
      (process_group cfg db writeOk false tid country count last boundary).status
        = GroupStatus.success) ∧
    (get_invoices_for_group cfg.incremental db tid country last boundary = [] →
      (process_group cfg db writeOk false tid country count last boundary).status
        = GroupStatus.no_data) ∧
    (process_group cfg db writeOk false tid country count last boundary).status
      ≠ GroupStatus.error := by
  refine ⟨?_, ?_, ?_, ?_⟩
  · unfold process_group
    rw [invalid_record_excluded cfg.incremental db tid country last boundary rbad hbad]
  · intro hne
    simp [process_group, List.isEmpty_iff, hne]
  · intro he
    simp [process_group, List.isEmpty_iff, he]
  · by_cases he : (get_invoices_for_group cfg.incremental db tid country last boundary).isEmpty
      <;> simp [process_group, he]

/-- A malformed companion row for `sampleRow`: same tenant and country,
payload parses but lacks the `ID` field. -/
def badRow : DbRow :=
  { ftenant_id := ['1']
  , fcountry := some ['D', 'E']
  , fissue_status := 3
  , finvoice_no := ['B']
  , issueDatePresent := true
  , issue_date_fmt := "20240102".data
  , extPresent := true
  , extKeys := some ["IssueDate"]
  , fupdate_time := 60 }

/-- C7 counterexample (to "counted in a skipped tally"): `badRow` is
selected by the partition's SQL query and fails schema validation, yet the
partition's result — every field, including the deltas added to the shared
`stats` counters — is byte-identical with and without `badRow`: the number
of skipped records is recorded nowhere (it is only logged), so no skipped
tally exists. -/
theorem no_skipped_tally_for_malformed_record :
    sqlRowBase ['1'] ['D', 'E'] badRow = true ∧
    validate_json_field badRow.extKeys = false ∧
    process_group sampleCfg [sampleRow, badRow] (fun _ => true) false
        ['1'] ['D', 'E'] 2 (some 0) (some 700)
      = process_group sampleCfg [sampleRow] (fun _ => true) false
        ['1'] ['D', 'E'] 1 (some 0) (some 700) := by
  refine ⟨by decide, by decide, ?_⟩
  decide

/-- Witness for `malformed_record_skipped_not_fatal` at the concrete
partition `("1", "DE")` with one valid and one malformed record. -/
theorem malformed_record_skipped_not_fatal_witness :
    (process_group sampleCfg [sampleRow, badRow] (fun _ => true) false
        ['1'] ['D', 'E'] 2 (some 0) (some 700)).status = GroupStatus.success :=
  (malformed_record_skipped_not_fatal sampleCfg [sampleRow] (fun _ => true)
    ['1'] ['D', 'E'] 2 (some 0) (some 700) badRow (Or.inr (by decide))).2.1 (by decide) ▸
    ((malformed_record_skipped_not_fatal sampleCfg [sampleRow] (fun _ => true)
      ['1'] ['D', 'E'] 2 (some 0) (some 700) badRow (Or.inr (by decide))).1 ▸ rfl)

/-! ## Theorems for C9 -/

/-- `process_group` echoes its partition key in every branch. -/
theorem process_group_key (cfg : ExporterCfg) (db : List DbRow) (writeOk : Invoice → Bool)
    (exn : Bool) (tid country : List Char) (cnt : Nat) (last boundary : Option Nat) :
    (process_group cfg db writeOk exn tid country cnt last boundary).tenant_id = tid ∧
    (process_group cfg db writeOk exn tid country cnt last boundary).country = country := by
  unfold process_group
  split
  · exact ⟨rfl, rfl⟩
  · dsimp only
    split
    · exact ⟨rfl, rfl⟩
    · exact ⟨rfl, rfl⟩

/-- The partition keys a tenant pass processes, in order: exactly the
tenant's groups, in enumeration order. -/
theorem tenantPass_keys (cfg : ExporterCfg) (db : List DbRow) (writeOk : Invoice → Bool)
    (exn : List Char → List Char → Bool) (boundary : Nat)
    (groups : List (List Char × List Char × Nat)) (ledger : List Line) (tid : List Char) :
    (tenantPass cfg db writeOk exn boundary groups ledger tid).1.map
        (fun r => (r.tenant_id, r.country))
      = (groups.filter (fun g => g.1 == tid)).map (fun g => (tid, g.2.1)) := by
  simp only [tenantPass, List.map_map]
  exact List.map_congr_left (fun g _ => by
    have h := process_group_key cfg db writeOk (exn tid g.2.1) tid g.2.1 g.2.2
      (some (lastExportNat ledger tid)) (some boundary)
    simp [Function.comp, h.1, h.2])

/-- The per-tenant fold of `export_incremental` produces the partition
results in per-tenant concatenation order. -/
theorem incr_fold_keys (cfg : ExporterCfg) (db : List DbRow) (writeOk : Invoice → Bool)
    (exn : List Char → List Char → Bool) (boundary : Nat)
    (gs : List (List Char × List Char × Nat)) (ts : List (List Char)) :
    ∀ acc : List GroupResult × Nat × List Line,
      (ts.foldl (incrStep cfg db writeOk exn boundary gs) acc).1.map
          (fun r => (r.tenant_id, r.country))
        = acc.1.map (fun r => (r.tenant_id, r.country))
          ++ ts.flatMap (fun tid =>
              (gs.filter (fun g => g.1 == tid)).map (fun g => (tid, g.2.1))) := by
  induction ts with
  | nil => intro acc; simp
  | cons t ts ih =>
    intro acc
    rw [List.foldl_cons, ih]
    simp only [incrStep]
    rw [List.map_append, tenantPass_keys]
    simp [List.append_assoc]

/-- C9: in incremental mode partitions are processed strictly sequentially
(the per-tenant fold of sequential `process_group` calls — the embedding of
`export_incremental` contains no concurrency primitive), with tenants in
ascending sorted order of tenant id and, within a tenant, the groups in
enumeration order; the configured worker-thread count has no effect on any
part of the outcome. -/
theorem incremental_sequential_sorted_thread_independent (cfg : ExporterCfg)
    (db : List DbRow) (writeOk : Invoice → Bool) (exn : List Char → List Char → Bool)
    (ledger0 : List Line) (now : Nat) (limit : Option Nat) (t1 t2 : Nat) :
    export_incremental { cfg with num_threads := t1 } db writeOk exn ledger0 now limit
      = export_incremental { cfg with num_threads := t2 } db writeOk exn ledger0 now limit ∧
    (export_incremental cfg db writeOk exn ledger0 now limit).results.map
        (fun r => (r.tenant_id, r.country))
      = (unique_tenants (limitGroups limit (get_tenant_country_groups cfg db))).flatMap
          (fun tid => ((limitGroups limit (get_tenant_country_groups cfg db)).filter
              (fun g => g.1 == tid)).map (fun g => (tid, g.2.1))) ∧
    List.Sorted (· ≤ ·)
      (unique_tenants (limitGroups limit (get_tenant_country_groups cfg db))) := by
  refine ⟨?_, ?_, ?_⟩
  · cases cfg
    rfl
  · simp only [export_incremental]
    rw [incr_fold_keys]
    simp
  · simp only [unique_tenants]
    exact List.sorted_insertionSort _ _

/-! ## Theorems for C8 -/

theorem foldl_add_processed (l : List GroupResult) (n : Nat) :
    l.foldl (fun a r => a + r.processed) n = n + (l.map (fun r => r.processed)).sum := by
  induction l generalizing n with
  | nil => simp
  | cons r l ih => simp [ih, Nat.add_assoc]

/-- With no partition exception and no write failure, the summed
success-count of a list of groups is the total number of valid invoices
selected for them (dry-run or not). -/
theorem filter_success_sum (cfg : ExporterCfg) (db : List DbRow) (writeOk : Invoice → Bool)
    (tid : List Char) (last boundary : Option Nat) (hwr : ∀ i, writeOk i = true) :
    ∀ tg : List (List Char × List Char × Nat),
      (((tg.map (fun g =>
            process_group cfg db writeOk false tid g.2.1 g.2.2 last boundary)).filter
          (fun r => r.status == GroupStatus.success)).map (fun r => r.processed)).sum
        = (tg.map (fun g =>
            (get_invoices_for_group cfg.incremental db tid g.2.1 last boundary).length)).sum := by
  intro tg
  induction tg with
  | nil => rfl
  | cons g tg ih =>
    rw [List.map_cons, List.map_cons, List.sum_cons]
    by_cases hnil : get_invoices_for_group cfg.incremental db tid g.2.1 last boundary = []
    · rw [show process_group cfg db writeOk false tid g.2.1 g.2.2 last boundary
          = ⟨tid, g.2.1, GroupStatus.no_data, 0, 0, 0, 0⟩ from by
        simp [process_group, hnil]]
      rw [List.filter_cons_of_neg (by simp), ih, hnil]
      simp
    · have hfe : (get_invoices_for_group cfg.incremental db tid g.2.1 last boundary).filter
          writeOk = get_invoices_for_group cfg.incremental db tid g.2.1 last boundary :=
        List.filter_eq_self.2 (fun i _ => hwr i)
      rw [show process_group cfg db writeOk false tid g.2.1 g.2.2 last boundary
          = ⟨tid, g.2.1, GroupStatus.success,
              (write_invoice_files cfg.dry_run writeOk
                (get_invoices_for_group cfg.incremental db tid g.2.1 last boundary)).1,
              (get_invoices_for_group cfg.incremental db tid g.2.1 last boundary).length,
              (get_invoices_for_group cfg.incremental db tid g.2.1 last boundary).length,
              (write_invoice_files cfg.dry_run writeOk
                (get_invoices_for_group cfg.incremental db tid g.2.1 last boundary)).2⟩ from by
        simp [process_group, hnil]]
      rw [List.filter_cons_of_pos (by simp), List.map_cons, List.sum_cons, ih]
      have hw : (write_invoice_files cfg.dry_run writeOk
          (get_invoices_for_group cfg.incremental db tid g.2.1 last boundary)).1
          = (get_invoices_for_group cfg.incremental db tid g.2.1 last boundary).length := by
        by_cases hdry : cfg.dry_run <;> simp [write_invoice_files, hdry, hfe]
      rw [hw]

theorem dedup_of_forall_eq {α : Type} [DecidableEq α] (a : α) :
    ∀ xs : List α, xs ≠ [] → (∀ x ∈ xs, x = a) → xs.dedup = [a]
  | [], h, _ => absurd rfl h
  | x :: xs, _, hall => by
    have hx : x = a := hall x (List.mem_cons_self x xs)
    subst hx
    rcases xs with _ | ⟨y, ys⟩
    · simp
    · have hxs : ∀ z ∈ y :: ys, z = x := fun z hz => hall z (List.mem_cons_of_mem _ hz)
      have hmem : x ∈ y :: ys := by
        have := hxs y (List.mem_cons_self y ys)
        rw [← this]
        exact List.mem_cons_self y ys
      rw [List.dedup_cons_of_mem hmem]
      exact dedup_of_forall_eq x (y :: ys) (by simp) hxs

/-- C8: in an incremental run over a tenant with no prior watermark the run
boundary is the current time minus 300 seconds, the baseline is the epoch
(instant 0) so the tenant's records are exactly those whose update time
lies in the half-open window `(epoch, boundary]`, and after the run the
ledger holds exactly one line for that tenant, carrying that boundary and
the count of exported records. -/
theorem incremental_first_run_no_watermark (cfg : ExporterCfg) (db : List DbRow)
    (writeOk : Invoice → Bool) (exn : List Char → List Char → Bool)
    (ledger0 : List Line) (now : Nat) (limit : Option Nat) (c : Char) (cs : List Char)
    (hc : pyIsSpace c = false)
    (hincr : cfg.incremental = true)
    (hdry : cfg.dry_run = false)
    (hnoline : ∀ l ∈ ledger0, lineIsTenant (c :: cs) l = false)
    (hgroups : ∀ g ∈ limitGroups limit (get_tenant_country_groups cfg db), g.1 = c :: cs)
    (hne : limitGroups limit (get_tenant_country_groups cfg db) ≠ [])
    (hexn : ∀ country, exn (c :: cs) country = false)
    (hwr : ∀ i, writeOk i = true) :
    calculate_export_boundary now = now - 300 ∧
    lastExportNat ledger0 (c :: cs) = 0 ∧
    (∀ country r, sqlRowIncr (c :: cs) country 0 (calculate_export_boundary now) r = true ↔
      (sqlRowBase (c :: cs) country r = true ∧ 0 < r.fupdate_time ∧
        r.fupdate_time ≤ calculate_export_boundary now)) ∧
    (export_incremental cfg db writeOk exn ledger0 now limit).ledger.filter
        (fun l => lineIsTenant (c :: cs) l)
      = [newLedgerLine (c :: cs) (calculate_export_boundary now)
          (((limitGroups limit (get_tenant_country_groups cfg db)).map (fun g =>
            (get_invoices_for_group true db (c :: cs) g.2.1 (some 0)
              (some (calculate_export_boundary now))).length)).sum) "SUCCESS".data] := by
  have hlast : lastExportNat ledger0 (c :: cs) = 0 := by
    have hfind : get_last_export_time ledger0 (c :: cs) = none := by
      unfold get_last_export_time
      rw [List.find?_eq_none.2 (fun l hl => by simp [hnoline l hl])]
    simp [lastExportNat, hfind]
  refine ⟨rfl, hlast, ?_, ?_⟩
  · intro country r
    simp [sqlRowIncr, Bool.and_assoc]
  · have htg : (limitGroups limit (get_tenant_country_groups cfg db)).filter
        (fun g => g.1 == c :: cs) = limitGroups limit (get_tenant_country_groups cfg db) :=
      List.filter_eq_self.2 (fun g hg => by simp [hgroups g hg])
    have huniq : unique_tenants (limitGroups limit (get_tenant_country_groups cfg db))
        = [c :: cs] := by
      unfold unique_tenants
      rw [dedup_of_forall_eq (c :: cs) _
        (by simpa using hne)
        (by intro x hx
            obtain ⟨g, hg, rfl⟩ := List.mem_map.1 hx
            exact hgroups g hg)]
      simp
    have hexn' : ((limitGroups limit (get_tenant_country_groups cfg db)).map (fun g =>
        process_group cfg db writeOk (exn (c :: cs) g.2.1) (c :: cs) g.2.1 g.2.2
          (some 0) (some (calculate_export_boundary now))))
        = (limitGroups limit (get_tenant_country_groups cfg db)).map (fun g =>
        process_group cfg db writeOk false (c :: cs) g.2.1 g.2.2
          (some 0) (some (calculate_export_boundary now))) :=
      List.map_congr_left (fun g _ => by rw [hexn g.2.1])
    have hpass : (tenantPass cfg db writeOk exn (calculate_export_boundary now)
        (limitGroups limit (get_tenant_country_groups cfg db)) ledger0 (c :: cs)).2.2
        = ledger0.filter (fun l => !(lineIsTenant (c :: cs) l))
          ++ [newLedgerLine (c :: cs) (calculate_export_boundary now)
            (((limitGroups limit (get_tenant_country_groups cfg db)).map (fun g =>
              (get_invoices_for_group true db (c :: cs) g.2.1 (some 0)
                (some (calculate_export_boundary now))).length)).sum) "SUCCESS".data] := by
      simp only [tenantPass, hlast, htg, hexn']
      rw [foldl_add_processed, Nat.zero_add, filter_success_sum cfg db writeOk (c :: cs)
        (some 0) (some (calculate_export_boundary now)) hwr, hincr, hdry,
        update_export_time_eq]
    have hledger : (export_incremental cfg db writeOk exn ledger0 now limit).ledger
        = (tenantPass cfg db writeOk exn (calculate_export_boundary now)
          (limitGroups limit (get_tenant_country_groups cfg db)) ledger0 (c :: cs)).2.2 := by
      simp only [export_incremental, huniq, List.foldl_cons, List.foldl_nil, incrStep]
    rw [hledger, hpass, List.filter_append]
    have hkept : (ledger0.filter (fun l => !(lineIsTenant (c :: cs) l))).filter
        (fun l => lineIsTenant (c :: cs) l) = [] := by
      simp [List.filter_filter]
    rw [hkept]
    simp [lineIsTenant_newLedgerLine c cs _ _ _ hc]


/-- Witness for `incremental_first_run_no_watermark`: tenant `"1"`, one
record updated at instant 50, run at `now = 1000` (boundary 700), empty
initial ledger. -/
theorem incremental_first_run_no_watermark_witness :
    (export_incremental sampleCfg [sampleRow] (fun _ => true) (fun _ _ => false)
        [] 1000 none).ledger.filter (fun l => lineIsTenant ['1'] l)
      = [newLedgerLine ['1'] (calculate_export_boundary 1000)
          (((limitGroups none (get_tenant_country_groups sampleCfg [sampleRow])).map (fun g =>
            (get_invoices_for_group true [sampleRow] ['1'] g.2.1 (some 0)
              (some (calculate_export_boundary 1000))).length)).sum) "SUCCESS".data] :=
  (incremental_first_run_no_watermark sampleCfg [sampleRow] (fun _ => true)
    (fun _ _ => false) [] 1000 none '1' [] (by decide) rfl rfl (by simp)
    (by decide) (by decide) (fun _ => rfl) (fun _ => rfl)).2.2.2

/-! ## Lock lifecycle of an export run (C1)

Events on the two locks during one `POST /admin/api/sync/invoices` run.
The request lock is `SyncLockManager` above; the process (file) lock is
`StateManager.acquire_lock` / `release_lock`
(export_invoice_data.py lines 75-98). -/

inductive LockEv
  | procAcquire
  | procRelease
  | reqAcquire
  | reqRelease
deriving DecidableEq, Repr

/-- `StateManager.__enter__` (lines 69-70) returns `self` without calling
`acquire_lock`: no lock event.  (`acquire_lock` exists at lines 75-87 but
no code in the repository ever calls it.) -/
def stateManagerEnterEvents : List LockEv := []

/-- `StateManager.release_lock` (lines 88-98): unlocks and removes the
lock file only when `self.lock_file` is set.  `__init__` sets it to `None`
and `acquire_lock` — its only writer — is never invoked, so on the
`with`-exit path the guard is always false. -/
def releaseLockEvents (lockFileOpen : Bool) : List LockEv :=
  if lockFileOpen then [LockEv.procRelease] else []

/-- Lock events of `export_incremental`'s `with self.state_manager:` block
(lines 506-604): `__enter__` (no acquisition), the body (no lock call),
`__exit__` → `release_lock` with `lock_file = None` (no event). -/
def exportIncrementalLockTrace : List LockEv :=
  stateManagerEnterEvents ++ releaseLockEvents false

/-- `export_all` performs no `StateManager` lock operation at all. -/
def exportAllLockTrace : List LockEv := []

/-- Exit paths of the SSE generator `stream_invoice_sync`: normal
completion, exception (caught by the `except` arm), or generator
abandonment (client disconnect); the `finally` arm runs on all three, and
an abandoned stream's worker still completes its `with` block in the
background. -/
inductive RunExit
  | success
  | exception
  | abandoned
deriving DecidableEq, Repr

/-- Lock-event trace of one full invoice-sync run: the endpoint acquires
the request lock before any stream is opened (endpoints.py line 183), the
worker contributes the export's process-lock events, and the generator's
`finally` (sync_service.py line 285) releases the request lock however the
run ends — the trace is the same for every `RunExit`. -/
def runLockTrace (incremental : Bool) (e : RunExit) : List LockEv :=
  match e with
  | _ =>
    [LockEv.reqAcquire]
      ++ (if incremental then exportIncrementalLockTrace else exportAllLockTrace)
      ++ [LockEv.reqRelease]

/-- C1 (code-bug evidence): on every exit path of every run — incremental
or full — the in-process request lock is acquired exactly once and
released exactly once, but the process (file) lock is NEVER acquired: the
count of `procAcquire` events is 0, contradicting the claim that the
process lock is held for the entire duration of an incremental export
run.  `StateManager.acquire_lock` is dead code — `with self.state_manager`
only runs the (no-op) release on exit. -/
theorem run_lock_trace_no_process_acquire (incremental : Bool) (e : RunExit) :
    (runLockTrace incremental e).count LockEv.procAcquire = 0 ∧
    (runLockTrace incremental e).count LockEv.procRelease = 0 ∧
    (runLockTrace incremental e).count LockEv.reqAcquire = 1 ∧
    (runLockTrace incremental e).count LockEv.reqRelease = 1 := by
  cases incremental <;> cases e <;> decide

/-! ## Event relay (C6): the `stream_invoice_sync` consumer loop
(sync_service.py lines 226-275)

Worker-thread enqueues (`QueueLoggingHandler.emit` via
`call_soon_threadsafe`, and `progress_queue.put_nowait`) and the asyncio
consumer interleave on one event loop; a schedule — a list of booleans,
`true` for one worker enqueue, `false` for one consumer loop iteration —
models every possible interleaving.  `sync_task.done()` holds exactly when
the worker has nothing left to enqueue.  If the schedule ends early the
worker, which always runs to completion on its own OS thread, finishes its
enqueues before the consumer's final drain.  Heartbeat timing is
abstracted (an idle iteration emits one); the delivery properties ignore
heartbeats. -/

inductive WorkerEv
  | log (n : Nat)
  | progress (n : Nat)
deriving DecidableEq, Repr

inductive OutEv
  | logMessage (n : Nat)
  | progressUpdate (n : Nat)
  | heartbeat
  | completed
deriving DecidableEq, Repr

/-- The two queues plus the worker's still-to-enqueue events (in the
worker's own causal order). -/
structure RelayState where
  logQ : List Nat
  progQ : List Nat
  pending : List WorkerEv
deriving DecidableEq, Repr

/-- One worker enqueue: the next pending event is appended to its queue. -/
def workerStep (s : RelayState) : RelayState :=
  match s.pending with
  | [] => s
  | WorkerEv.log n :: rest => { s with logQ := s.logQ ++ [n], pending := rest }
  | WorkerEv.progress n :: rest => { s with progQ := s.progQ ++ [n], pending := rest }

/-- One iteration of the `while not sync_task.done()` loop: deliver one
log if available, else one progress update, else a heartbeat (lines
230-254). -/
def consumerStep (s : RelayState) : RelayState × OutEv :=
  match s.logQ with
  | n :: rest => ({ s with logQ := rest }, OutEv.logMessage n)
  | [] =>
    match s.progQ with
    | n :: rest => ({ s with progQ := rest }, OutEv.progressUpdate n)
    | [] => (s, OutEv.heartbeat)

/-- The worker thread finishing its remaining enqueues into the two
queues. -/
def flushAux : List WorkerEv → List Nat → List Nat → List Nat × List Nat
  | [], lq, pq => (lq, pq)
  | WorkerEv.log n :: rest, lq, pq => flushAux rest (lq ++ [n]) pq
  | WorkerEv.progress n :: rest, lq, pq => flushAux rest lq (pq ++ [n])

/-- The final non-blocking drain of both queues followed by the terminal
`sync_completed` event (lines 256-275). -/
def drainAndComplete (lq pq : List Nat) : List OutEv :=
  lq.map OutEv.logMessage ++ pq.map OutEv.progressUpdate ++ [OutEv.completed]

/-- The consumer generator under a given interleaving: loop while the
worker is not done (one scheduled participant acting per step), then drain
both queues and emit the terminal event. -/
def relayRun : List Bool → RelayState → List OutEv
  | [], s =>
    let r := flushAux s.pending s.logQ s.progQ
    drainAndComplete r.1 r.2
  | c :: rest, s =>
    if s.pending.isEmpty then drainAndComplete s.logQ s.progQ
    else if c then relayRun rest (workerStep s)
    else
      let r := consumerStep s
      r.2 :: relayRun rest r.1

def outLogs (out : List OutEv) : List Nat :=
  out.filterMap fun e => match e with | OutEv.logMessage n => some n | _ => none

def outProgs (out : List OutEv) : List Nat :=
  out.filterMap fun e => match e with | OutEv.progressUpdate n => some n | _ => none

def pendingLogs (p : List WorkerEv) : List Nat :=
  p.filterMap fun e => match e with | WorkerEv.log n => some n | _ => none

def pendingProgs (p : List WorkerEv) : List Nat :=
  p.filterMap fun e => match e with | WorkerEv.progress n => some n | _ => none

theorem flushAux_spec : ∀ (p : List WorkerEv) (lq pq : List Nat),
    flushAux p lq pq = (lq ++ pendingLogs p, pq ++ pendingProgs p)
  | [], lq, pq => by simp [flushAux, pendingLogs, pendingProgs]
  | WorkerEv.log n :: rest, lq, pq => by
    simp [flushAux, pendingLogs, pendingProgs, flushAux_spec rest (lq ++ [n]) pq]
  | WorkerEv.progress n :: rest, lq, pq => by
    simp [flushAux, pendingLogs, pendingProgs, flushAux_spec rest lq (pq ++ [n])]

theorem outLogs_append (l1 l2 : List OutEv) :
    outLogs (l1 ++ l2) = outLogs l1 ++ outLogs l2 := by
  simp [outLogs, List.filterMap_append]

theorem outProgs_append (l1 l2 : List OutEv) :
    outProgs (l1 ++ l2) = outProgs l1 ++ outProgs l2 := by
  simp [outProgs, List.filterMap_append]

theorem outLogs_map_log : ∀ lq : List Nat, outLogs (lq.map OutEv.logMessage) = lq
  | [] => rfl
  | n :: l => by simpa [outLogs] using outLogs_map_log l

theorem outLogs_map_prog : ∀ pq : List Nat, outLogs (pq.map OutEv.progressUpdate) = []
  | [] => rfl
  | n :: l => by simp [outLogs]

theorem outProgs_map_log : ∀ lq : List Nat, outProgs (lq.map OutEv.logMessage) = []
  | [] => rfl
  | n :: l => by simp [outProgs]

theorem outProgs_map_prog : ∀ pq : List Nat, outProgs (pq.map OutEv.progressUpdate) = pq
  | [] => rfl
  | n :: l => by simpa [outProgs] using outProgs_map_prog l

theorem count_completed_map_log (lq : List Nat) :
    (lq.map OutEv.logMessage).count OutEv.completed = 0 := by
  simp [List.count_eq_zero, List.mem_map]

theorem count_completed_map_prog (pq : List Nat) :
    (pq.map OutEv.progressUpdate).count OutEv.completed = 0 := by
  simp [List.count_eq_zero, List.mem_map]

theorem drain_spec (lq pq : List Nat) :
    outLogs (drainAndComplete lq pq) = lq ∧
    outProgs (drainAndComplete lq pq) = pq ∧
    (drainAndComplete lq pq).getLast? = some OutEv.completed ∧
    (drainAndComplete lq pq).count OutEv.completed = 1 := by
  refine ⟨?_, ?_, ?_, ?_⟩
  · rw [drainAndComplete, outLogs_append, outLogs_append, outLogs_map_log,
      outLogs_map_prog]
    simp [outLogs]
  · rw [drainAndComplete, outProgs_append, outProgs_append, outProgs_map_log,
      outProgs_map_prog]
    simp [outProgs]
  · simp [drainAndComplete, ← List.append_assoc, List.getLast?_concat]
  · rw [drainAndComplete, List.count_append, List.count_append,
      count_completed_map_log, count_completed_map_prog]
    rfl

theorem workerStep_queues (s : RelayState) :
    (workerStep s).logQ ++ pendingLogs (workerStep s).pending
        = s.logQ ++ pendingLogs s.pending ∧
    (workerStep s).progQ ++ pendingProgs (workerStep s).pending
        = s.progQ ++ pendingProgs s.pending := by
  unfold workerStep
  rcases hp : s.pending with _ | ⟨e, rest⟩
  · exact ⟨by simp [hp], by simp [hp]⟩
  · cases e <;> simp [pendingLogs, pendingProgs]

theorem relayRun_spec : ∀ (sched : List Bool) (s : RelayState),
    outLogs (relayRun sched s) = s.logQ ++ pendingLogs s.pending ∧
    outProgs (relayRun sched s) = s.progQ ++ pendingProgs s.pending ∧
    (relayRun sched s).getLast? = some OutEv.completed ∧
    (relayRun sched s).count OutEv.completed = 1 := by
  intro sched
  induction sched with
  | nil =>
    intro s
    have h := drain_spec (s.logQ ++ pendingLogs s.pending) (s.progQ ++ pendingProgs s.pending)
    simpa [relayRun, flushAux_spec] using h
  | cons c rest ih =>
    intro s
    by_cases hp : s.pending.isEmpty
    · have hpe : s.pending = [] := List.isEmpty_iff.1 hp
      have hr : relayRun (c :: rest) s = drainAndComplete s.logQ s.progQ := by
        simp [relayRun, hp]
      have h := drain_spec s.logQ s.progQ
      rw [hr, hpe]
      simpa [pendingLogs, pendingProgs] using h
    · cases c
      ·
        have hr : relayRun (false :: rest) s
            = (consumerStep s).2 :: relayRun rest (consumerStep s).1 := by
          simp [relayRun, hp]
        obtain ⟨h1, h2, h3, h4⟩ := ih (consumerStep s).1
        have hne : relayRun rest (consumerStep s).1 ≠ [] := by
          intro hnil
          rw [hnil] at h3
          simp at h3
        have hlast : ((consumerStep s).2 :: relayRun rest (consumerStep s).1).getLast?
            = some OutEv.completed := by
          rcases he : relayRun rest (consumerStep s).1 with _ | ⟨b, t⟩
          · exact absurd he hne
          · rw [he] at h3
            simpa using h3
        have hcount : ∀ e : OutEv, e ≠ OutEv.completed →
            (e :: relayRun rest (consumerStep s).1).count OutEv.completed = 1 := by
          intro e he
          rw [List.count_cons, h4]
          simp [he]
        rw [hr]
        rcases hl : s.logQ with _ | ⟨n, lrest⟩
        · rcases hq : s.progQ with _ | ⟨m, prest⟩
          · have hcs1 : (consumerStep s).1 = s := by
              unfold consumerStep
              rw [hl, hq]
            have hcs2 : (consumerStep s).2 = OutEv.heartbeat := by
              unfold consumerStep
              rw [hl, hq]
            rw [hcs1] at h1 h2 hcount
            rw [hcs1, hcs2]
            refine ⟨?_, ?_, ?_, ?_⟩
            · simpa [outLogs, hl] using h1
            · simpa [outProgs, hq] using h2
            · rw [← hcs1, ← hcs2]
              exact hlast
            · exact hcount OutEv.heartbeat (by simp)
          · have hcs1 : (consumerStep s).1 = { s with progQ := prest } := by
              unfold consumerStep
              rw [hl, hq]
            have hcs2 : (consumerStep s).2 = OutEv.progressUpdate m := by
              unfold consumerStep
              rw [hl, hq]
            rw [hcs1] at h1 h2 hcount
            rw [hcs1, hcs2]
            refine ⟨?_, ?_, ?_, ?_⟩
            · simpa [outLogs, hl] using h1
            · simpa [outProgs] using h2
            · rw [← hcs1, ← hcs2]
              exact hlast
            · exact hcount (OutEv.progressUpdate m) (by simp)
        · have hcs1 : (consumerStep s).1 = { s with logQ := lrest } := by
            unfold consumerStep
            rw [hl]
          have hcs2 : (consumerStep s).2 = OutEv.logMessage n := by
            unfold consumerStep
            rw [hl]
          rw [hcs1] at h1 h2 hcount
          rw [hcs1, hcs2]
          refine ⟨?_, ?_, ?_, ?_⟩
          · simpa [outLogs] using h1
          · simpa [outProgs] using h2
          · rw [← hcs1, ← hcs2]
            exact hlast
          · exact hcount (OutEv.logMessage n) (by simp)
      ·
        have hr : relayRun (true :: rest) s = relayRun rest (workerStep s) := by
          simp [relayRun, hp]
        have h := ih (workerStep s)
        have hq := workerStep_queues s
        rw [hr]
        exact ⟨by rw [h.1, hq.1], by rw [h.2.1, hq.2], h.2.2.1, h.2.2.2⟩

/-- C6: under every interleaving of worker enqueues with consumer loop
iterations, every log and progress event the worker enqueues is delivered
to the stream consumer exactly once — per queue in the worker's own order,
none dropped — and the terminal completion event is emitted exactly once,
after both queues have been fully drained (it is the final event of the
stream). -/
theorem relay_delivers_every_event_exactly_once (sched : List Bool)
    (pending : List WorkerEv) :
    outLogs (relayRun sched ⟨[], [], pending⟩) = pendingLogs pending ∧
    outProgs (relayRun sched ⟨[], [], pending⟩) = pendingProgs pending ∧
    (relayRun sched ⟨[], [], pending⟩).getLast? = some OutEv.completed ∧
    (relayRun sched ⟨[], [], pending⟩).count OutEv.completed = 1 := by
  have h := relayRun_spec sched ⟨[], [], pending⟩
  simpa using h
